import Mathlib

/-!
Verification of `filter_cf_domains.py`: a bulk HTTPS prober that classifies
domains by response-header fingerprint (the probe `check_cloudflare`) and a
semaphore-bounded async dispatcher (`main`) that drains completions with
`asyncio.as_completed`, accumulating matched domains and progress output.

The embedding below models:
* response headers as an aiohttp `CIMultiDict`: an ordered list of
  name/value pairs with case-insensitive name lookup (`headersContains`
  models `name in headers`, `headersGet` models `headers.get(name, d)`,
  both matching the first entry, names compared case-insensitively);
* the probe `check_cloudflare` over an abstract HTTP outcome
  (`Except ProbeError Headers`: any raised error versus a header set);
* the dispatcher as a small-step scheduling relation (`SchedStep`) for the
  semaphore admission gate of `check_with_semaphore`, plus a pure
  aggregation fold (`aggStep` / `aggRun`) for the `as_completed` loop body.
-/

/-- Python `str.lower()` restricted to what header comparison needs:
per-character ASCII lowercasing. -/
def lowerStr (s : String) : String :=
  String.mk (s.data.map Char.toLower)

/-- aiohttp response headers: an ordered multi-dict of name/value pairs. -/
abbrev Headers : Type := List (String × String)

/-- Membership test `name in headers` on a `CIMultiDict`: some entry has the given name,
compared case-insensitively. -/
def headersContains (hs : Headers) (name : String) : Bool :=
  hs.any (fun h => lowerStr h.1 == lowerStr name)

/-- Lookup `headers.get(name, dflt)` on a `CIMultiDict`: the value of the FIRST
entry whose name matches case-insensitively, else the default. -/
def headersGet (hs : Headers) (name : String) (dflt : String) : String :=
  match hs.find? (fun h => lowerStr h.1 == lowerStr name) with
  | some h => h.2
  | none => dflt

/-- The failure modes the `except Exception` of `check_cloudflare` absorbs. -/
inductive ProbeError : Type where
  | connectionError : ProbeError
  | tlsError : ProbeError
  | timeoutExpiry : ProbeError
  | parseError : ProbeError
  | otherError : ProbeError
deriving DecidableEq

/-- Outcome of the `session.head` request: either a raised error or a
response carrying headers (the only part of the response the code reads). -/
abbrev HttpOutcome : Type := Except ProbeError Headers

/-- Probe `check_cloudflare(session, domain)`: on a response, positive iff
`"cf-ray" in headers or headers.get("server", "").lower() == "cloudflare"`;
on any raised error, `(domain, False)`. -/
def check_cloudflare (domain : String) (outcome : HttpOutcome) : String × Bool :=
  match outcome with
  | Except.error _ => (domain, false)
  | Except.ok headers =>
      if headersContains headers "cf-ray"
          || lowerStr (headersGet headers "server" "") == "cloudflare" then
        (domain, true)
      else
        (domain, false)

/-- The classification condition exactly as the spec words it: the headers
CONTAIN a header named "cf-ray" (case-insensitively), or CONTAIN a header
named "server" whose value, case-folded, equals "cloudflare". -/
def specPositive (hs : Headers) : Prop :=
  (∃ h ∈ hs, lowerStr h.1 = "cf-ray") ∨
    (∃ h ∈ hs, lowerStr h.1 = "server" ∧ lowerStr h.2 = "cloudflare")

instance (hs : Headers) : Decidable (specPositive hs) := by
  unfold specPositive
  infer_instance

/-- A completed probe, as drained by `as_completed`: the pair
`(domain, is_cf)` returned by `check_cloudflare`. -/
abbrev TaskResult : Type := String × Bool

/-- The results the batch will produce: `main` builds one
`check_with_semaphore(session, domain)` task per domain, and the task's
eventual value is `check_cloudflare` of that domain, determined here by the
network environment `env` mapping each domain to its HTTP outcome. -/
def dispatcherTasks (env : String → HttpOutcome) (domains : List String) : List TaskResult :=
  domains.map (fun d => check_cloudflare d (env d))

/-- Scheduler state of the batch: tasks still blocked on the semaphore
(`pending`), tasks holding a semaphore slot (`running`, the in-flight
probes), and the completions drained so far, in completion order
(`drained`). -/
structure SchedState : Type where
  pending : List TaskResult
  running : List TaskResult
  drained : List TaskResult
deriving DecidableEq

/-- One scheduling step of the semaphore-gated batch
(`check_with_semaphore`): a pending task may acquire a slot only while
fewer than `limit` probes are in flight; a running task may complete at
any time, releasing its slot unconditionally — whatever its boolean
result — and appending itself to the drained completions. -/
inductive SchedStep (limit : Nat) : SchedState → SchedState → Prop where
  | start : ∀ (s : SchedState) (r : TaskResult), r ∈ s.pending →
      s.running.length < limit →
      SchedStep limit s (SchedState.mk (s.pending.erase r) (r :: s.running) s.drained)
  | finish : ∀ (s : SchedState) (r : TaskResult), r ∈ s.running →
      SchedStep limit s (SchedState.mk s.pending (s.running.erase r) (s.drained ++ [r]))

/-- States the batch can reach from the initial state where every task is
blocked on the semaphore and nothing has completed. -/
def Reachable (limit : Nat) (tasks : List TaskResult) (s : SchedState) : Prop :=
  Relation.ReflTransGen (SchedStep limit) (SchedState.mk tasks [] []) s

/-- Predicate: `drained` is a completion order of the batch: a reachable state in
which every task has completed, i.e. the point at which `main`
falls out of the `as_completed` loop. -/
def CompletionOrder (limit : Nat) (tasks : List TaskResult) (drained : List TaskResult) : Prop :=
  ∃ s : SchedState, Reachable limit tasks s ∧
    s.pending = [] ∧ s.running = [] ∧ s.drained = drained

/-- The two progress prints of the `as_completed` loop:
`✅ [checked/total] domain - Cloudflare` on a match, and
`⏳ [checked/total] ... (found ... )` on a milestone. -/
inductive ProgressEvent : Type where
  | matchFound : Nat → Nat → String → ProgressEvent
  | milestone : Nat → Nat → Nat → ProgressEvent
deriving DecidableEq

/-- Aggregation state of the `as_completed` loop: the `checked` counter,
the accumulated `cf_domains`, and the progress lines printed so far. -/
structure AggState : Type where
  checked : Nat
  cf_domains : List String
  events : List ProgressEvent
deriving DecidableEq

/-- The body of the `as_completed` loop for one drained completion
`(domain, is_cf)`: increment `checked`; if matched, append the domain and
print the match line; otherwise print the milestone line when
`checked % 100 == 0`. -/
def aggStep (total : Nat) (s : AggState) (r : TaskResult) : AggState :=
  let checked := s.checked + 1
  if r.2 then
    AggState.mk checked (s.cf_domains ++ [r.1])
      (s.events ++ [ProgressEvent.matchFound checked total r.1])
  else if checked % 100 == 0 then
    AggState.mk checked s.cf_domains
      (s.events ++ [ProgressEvent.milestone checked total s.cf_domains.length])
  else
    AggState.mk checked s.cf_domains s.events

/-- The whole `as_completed` loop, run over a completion order, starting
from `checked = 0`, `cf_domains = []`. -/
def aggRun (total : Nat) (completions : List TaskResult) : AggState :=
  completions.foldl (aggStep total) (AggState.mk 0 [] [])

/-- Test predicate: is a progress line the periodic milestone print? -/
def isMilestone : ProgressEvent → Bool
  | ProgressEvent.milestone _ _ _ => true
  | ProgressEvent.matchFound _ _ _ => false

/-- A network environment in which every domain answers with a `cf-ray`
header, so every probe matches. -/
def envCF : String → HttpOutcome := fun _ => Except.ok [("cf-ray", "1")]

/-- A network environment in which only `m.test` answers with a `cf-ray`
header; every other domain answers with no headers at all. -/
def envMilestone : String → HttpOutcome := fun d =>
  if d = "m.test" then Except.ok [("cf-ray", "1")] else Except.ok []

/-- A batch of one hundred domains whose hundredth probe matches. -/
def milestoneDomains : List String := List.replicate 99 "n.test" ++ ["m.test"]

/-- A network environment in which only `a.test` answers with a `cf-ray`
header; every other domain times out. -/
def envAB : String → HttpOutcome := fun d =>
  if d = "a.test" then Except.ok [("cf-ray", "1")]
  else Except.error ProbeError.timeoutExpiry

/-- The loop body increments `checked` by exactly one on every completion,
matched or not. -/
theorem aggStep_checked (total : Nat) (s : AggState) (r : TaskResult) :
    (aggStep total s r).checked = s.checked + 1 := by
  unfold aggStep
  by_cases hr : r.2 = true <;> simp [hr, apply_ite AggState.checked]

/-- Folding the loop body adds the number of completions to `checked`. -/
theorem foldl_aggStep_checked (total : Nat) (l : List TaskResult) :
    ∀ s : AggState, (List.foldl (aggStep total) s l).checked = s.checked + l.length := by
  induction l with
  | nil => intro s; simp
  | cons r l ih =>
      intro s
      simp only [List.foldl_cons, List.length_cons, ih, aggStep_checked]
      omega

/-- Folding the loop body appends exactly the matched domains, in drain
order, to `cf_domains`. -/
theorem foldl_aggStep_cf_domains (total : Nat) (l : List TaskResult) :
    ∀ s : AggState, (List.foldl (aggStep total) s l).cf_domains
      = s.cf_domains ++ (l.filter (fun r => r.2)).map Prod.fst := by
  induction l with
  | nil => intro s; simp
  | cons r l ih =>
      intro s
      by_cases hr : r.2 = true
      · simp [List.foldl_cons, ih, aggStep, hr]
      · simp only [Bool.not_eq_true] at hr
        simp [List.foldl_cons, ih, aggStep, hr, apply_ite AggState.cf_domains]

/-- The loop body only appends to the printed progress lines. -/
theorem aggStep_events (total : Nat) (s : AggState) (r : TaskResult) :
    ∃ es : List ProgressEvent, (aggStep total s r).events = s.events ++ es := by
  unfold aggStep
  by_cases hr : r.2 = true
  · exact ⟨[ProgressEvent.matchFound (s.checked + 1) total r.1], by simp [hr]⟩
  · simp only [Bool.not_eq_true] at hr
    by_cases hc : (s.checked + 1) % 100 == 0
    · exact ⟨[ProgressEvent.milestone (s.checked + 1) total s.cf_domains.length], by
        simp [hr, hc]⟩
    · exact ⟨[], by simp [hr, hc]⟩

/-- Folding the loop body only appends to the printed progress lines. -/
theorem foldl_aggStep_events (total : Nat) (l : List TaskResult) :
    ∀ s : AggState, ∃ es : List ProgressEvent,
      (List.foldl (aggStep total) s l).events = s.events ++ es := by
  induction l with
  | nil => intro s; exact ⟨[], by simp⟩
  | cons r l ih =>
      intro s
      obtain ⟨es, hes⟩ := ih (aggStep total s r)
      obtain ⟨e1, he1⟩ := aggStep_events total s r
      exact ⟨e1 ++ es, by rw [List.foldl_cons, hes, he1, List.append_assoc]⟩

/-- Erasing one occurrence of a member and putting it back in front is a
permutation. -/
theorem perm_cons_erase_task (a : TaskResult) :
    ∀ l : List TaskResult, a ∈ l → l.Perm (a :: l.erase a) := by
  intro l
  induction l with
  | nil => intro h; cases h
  | cons b l ih =>
      intro h
      by_cases hb : (b == a) = true
      · have hba : b = a := eq_of_beq hb
        subst hba
        rw [List.erase_cons, if_pos hb]
      · have hmem : a ∈ l := by
          rcases List.mem_cons.mp h with hh | hh
          · subst hh
            exact absurd (beq_self_eq_true a) hb
          · exact hh
        rw [List.erase_cons, if_neg hb]
        exact ((ih hmem).cons b).trans (List.Perm.swap a b _)

/-- One scheduling step preserves the multiset of tasks in the system. -/
theorem schedStep_perm (limit : Nat) (s t : SchedState) (h : SchedStep limit s t) :
    (t.pending ++ t.running ++ t.drained).Perm (s.pending ++ s.running ++ s.drained) := by
  cases h with
  | start r hmem hlt =>
      simp only [List.append_assoc, List.cons_append]
      refine List.Perm.trans List.perm_middle ?_
      have := List.Perm.append_right (s.running ++ s.drained)
        (perm_cons_erase_task r _ hmem).symm
      simpa using this
  | finish r hmem =>
      simp only [List.append_assoc]
      refine List.Perm.append_left s.pending ?_
      refine List.Perm.trans (List.Perm.append_left _ (List.perm_append_singleton r _)) ?_
      refine List.Perm.trans List.perm_middle ?_
      have := List.Perm.append_right s.drained (perm_cons_erase_task r _ hmem).symm
      simpa using this

/-- Conservation of tasks: in every reachable scheduler state, the pending,
running and drained tasks together are a permutation of the submitted
batch — `as_completed` neither loses nor duplicates a task. -/
theorem reachable_perm (limit : Nat) (tasks : List TaskResult) (s : SchedState)
    (h : Reachable limit tasks s) :
    (s.pending ++ s.running ++ s.drained).Perm tasks := by
  induction h with
  | refl => simp
  | tail h₁ hstep ih => exact (schedStep_perm limit _ _ hstep).trans ih

/-- One scheduling step keeps the number of in-flight probes at or below
the gate width. -/
theorem schedStep_bound (limit : Nat) (s t : SchedState) (h : SchedStep limit s t)
    (hs : s.running.length ≤ limit) : t.running.length ≤ limit := by
  cases h with
  | start r hmem hlt => simpa using hlt
  | finish r hmem =>
      exact le_trans (List.Sublist.length_le (List.erase_sublist r s.running)) hs

/-- Admission-gate bound: in every reachable scheduler state at most
`limit` probes are in flight. -/
theorem reachable_bound (limit : Nat) (tasks : List TaskResult) (s : SchedState)
    (h : Reachable limit tasks s) : s.running.length ≤ limit := by
  induction h with
  | refl => simp
  | tail h₁ hstep ih => exact schedStep_bound limit _ _ hstep ih

/-- With a zero-width admission gate nothing can ever happen: the only
reachable state is the initial one. -/
theorem reachable_zero (tasks : List TaskResult) (s : SchedState)
    (h : Reachable 0 tasks s) : s = SchedState.mk tasks [] [] := by
  induction h with
  | refl => rfl
  | tail h₁ hstep ih =>
      subst ih
      cases hstep with
      | start r hmem hlt => exact absurd hlt (by simp)
      | finish r hmem => simp at hmem

/-- Any task list can be drained sequentially (start one task, let it
finish, repeat) whenever the gate admits at least one probe. -/
theorem reflTransGen_seq (limit : Nat) (hl : 0 < limit) :
    ∀ p d : List TaskResult,
      Relation.ReflTransGen (SchedStep limit)
        (SchedState.mk p [] d) (SchedState.mk [] [] (d ++ p)) := by
  intro p
  induction p with
  | nil => intro d; rw [List.append_nil]
  | cons t ts ih =>
      intro d
      have h1 : SchedStep limit (SchedState.mk (t :: ts) [] d)
          (SchedState.mk ts [t] d) := by
        have := @SchedStep.start limit (SchedState.mk (t :: ts) [] d) t
          (List.mem_cons_self t ts) (by simpa using hl)
        simpa using this
      have h2 : SchedStep limit (SchedState.mk ts [t] d)
          (SchedState.mk ts [] (d ++ [t])) := by
        have := @SchedStep.finish limit (SchedState.mk ts [t] d) t
          (List.mem_singleton.mpr rfl)
        simpa using this
      have h3 := ih (d ++ [t])
      rw [List.append_assoc, List.singleton_append] at h3
      exact Relation.ReflTransGen.head h1 (Relation.ReflTransGen.head h2 h3)

/-- Unfolding of the positive branch of the probe: the returned flag is
true exactly when the fingerprint condition of the code evaluates true. -/
theorem check_cloudflare_pos_iff (domain : String) (hs : Headers) :
    (check_cloudflare domain (Except.ok hs)).2 = true ↔
      (headersContains hs "cf-ray"
        || (lowerStr (headersGet hs "server" "") == "cloudflare")) = true := by
  unfold check_cloudflare
  by_cases h : (headersContains hs "cf-ray"
      || (lowerStr (headersGet hs "server" "") == "cloudflare")) = true
  · simp [h]
  · simp only [Bool.not_eq_true] at h
    simp [h]

/-- Characterisation: `headersContains` is membership of a case-insensitively matching name. -/
theorem headersContains_iff (hs : Headers) (name : String) :
    headersContains hs name = true ↔ ∃ h ∈ hs, lowerStr h.1 = lowerStr name := by
  unfold headersContains
  rw [List.any_eq_true]
  constructor
  · rintro ⟨h, hmem, hbeq⟩
    exact ⟨h, hmem, eq_of_beq hbeq⟩
  · rintro ⟨h, hmem, heq⟩
    exact ⟨h, hmem, beq_iff_eq.mpr heq⟩

/-- The `server` test of the probe succeeds exactly when the FIRST header
named `server` (case-insensitively) exists and its value lowercases to
`cloudflare`. -/
theorem headersGet_server_iff (hs : Headers) :
    (lowerStr (headersGet hs "server" "") == "cloudflare") = true ↔
      ∃ h : String × String,
        hs.find? (fun x => lowerStr x.1 == lowerStr "server") = some h ∧
          lowerStr h.2 = "cloudflare" := by
  unfold headersGet
  cases hfind : hs.find? (fun x => lowerStr x.1 == lowerStr "server") with
  | none =>
      simp only [beq_iff_eq, hfind]
      simp
      decide
  | some h => simp [beq_iff_eq]

/-- Submission order itself is an achievable completion order for any
positive gate width. -/
theorem completionOrder_self (limit : Nat) (hl : 0 < limit) (tasks : List TaskResult) :
    CompletionOrder limit tasks tasks :=
  ⟨SchedState.mk [] [] tasks, by simpa using reflTransGen_seq limit hl tasks [],
    rfl, rfl, rfl⟩

/-- A completion order is a permutation of the submitted batch. -/
theorem completionOrder_perm (limit : Nat) (tasks drained : List TaskResult)
    (h : CompletionOrder limit tasks drained) : drained.Perm tasks := by
  obtain ⟨s, hr, hp, hrn, hd⟩ := h
  have := reachable_perm limit tasks s hr
  rw [hp, hrn, hd] at this
  simpa using this

/-- C1 counterexample: a response whose headers CONTAIN a `server: cloudflare`
entry (so the spec's condition holds) but whose FIRST `server` entry carries a
different value is classified NEGATIVE by `check_cloudflare`, because
`headers.get("server", "")` reads only the first entry of the multi-dict. -/
theorem C1_probe_rule_counterexample :
    specPositive [("server", "nginx"), ("server", "cloudflare")] ∧
      check_cloudflare "multi.test"
        (Except.ok [("server", "nginx"), ("server", "cloudflare")])
        = ("multi.test", false) := by
  exact ⟨by decide, by decide⟩

/-- C1 (amended): for every HTTP response, the probe classifies positive iff
the headers contain an entry named `cf-ray` (name matched case-insensitively),
or the FIRST entry named `server` (case-insensitively) has a value that,
case-folded, equals exactly `cloudflare`; any other configuration, including
absence of both, classifies negative. -/
theorem C1_probe_rule_amended (domain : String) (hs : Headers) :
    (check_cloudflare domain (Except.ok hs)).2 = true ↔
      ((∃ h ∈ hs, lowerStr h.1 = "cf-ray") ∨
        (∃ h : String × String,
          hs.find? (fun x => lowerStr x.1 == lowerStr "server") = some h ∧
            lowerStr h.2 = "cloudflare")) := by
  rw [check_cloudflare_pos_iff, Bool.or_eq_true, headersContains_iff,
    headersGet_server_iff]
  have hc : lowerStr "cf-ray" = "cf-ray" := by decide
  rw [hc]

/-- C2: the probe never propagates an error outward: every failure mode of
the request (connection, TLS, timeout, parsing, anything else the
`except Exception` absorbs) is converted into the negative result
`(domain, false)`, and on every outcome the caller receives a plain
domain/flag pair, never an exception. -/
theorem C2_probe_error_isolation :
    (∀ (domain : String) (e : ProbeError),
        check_cloudflare domain (Except.error e) = (domain, false)) ∧
      ∀ (domain : String) (outcome : HttpOutcome),
        check_cloudflare domain outcome
          = (domain, (check_cloudflare domain outcome).2) := by
  constructor
  · intro domain e
    rfl
  · intro domain outcome
    cases outcome with
    | error e => rfl
    | ok hs =>
        by_cases h : (headersContains hs "cf-ray"
            || (lowerStr (headersGet hs "server" "") == "cloudflare")) = true
        · simp [check_cloudflare, h]
        · simp only [Bool.not_eq_true] at h
          simp [check_cloudflare, h]

/-- C10: on every execution path — positive, negative, or caught error —
the first component of the probe's result is the submitted domain itself,
so the batch's task results are keyed by exactly the submitted domains. -/
theorem C10_probe_preserves_domain :
    (∀ (domain : String) (outcome : HttpOutcome),
        (check_cloudflare domain outcome).1 = domain) ∧
      ∀ (env : String → HttpOutcome) (domains : List String),
        (dispatcherTasks env domains).map Prod.fst = domains := by
  have hfst : ∀ (domain : String) (outcome : HttpOutcome),
      (check_cloudflare domain outcome).1 = domain := by
    intro domain outcome
    cases outcome with
    | error e => rfl
    | ok hs =>
        by_cases h : (headersContains hs "cf-ray"
            || (lowerStr (headersGet hs "server" "") == "cloudflare")) = true
        · simp [check_cloudflare, h]
        · simp only [Bool.not_eq_true] at h
          simp [check_cloudflare, h]
  refine ⟨hfst, ?_⟩
  intro env domains
  unfold dispatcherTasks
  rw [List.map_map]
  have : (Prod.fst ∘ fun d => check_cloudflare d (env d)) = id :=
    funext fun d => hfst d (env d)
  rw [this, List.map_id]

/-- Positive and negative completions together count the whole drain. -/
theorem length_filter_pos_add_neg (l : List TaskResult) :
    (l.filter (fun r => r.2)).length + (l.filter (fun r => !r.2)).length = l.length := by
  induction l with
  | nil => rfl
  | cons r l ih =>
      cases hr : r.2 <;> simp [List.filter_cons, hr] <;> omega

/-- The final `cf_domains` of the loop is the matched completions' domains
in drain order. -/
theorem aggRun_cf_domains (total : Nat) (l : List TaskResult) :
    (aggRun total l).cf_domains = (l.filter (fun r => r.2)).map Prod.fst := by
  have := foldl_aggStep_cf_domains total l (AggState.mk 0 [] [])
  simpa [aggRun] using this

/-- The final `checked` of the loop is the number of drained completions. -/
theorem aggRun_checked (total : Nat) (l : List TaskResult) :
    (aggRun total l).checked = l.length := by
  have := foldl_aggStep_checked total l (AggState.mk 0 [] [])
  simpa [aggRun] using this

/-- The probe tags its result with the submitted domain, on every path. -/
theorem check_cloudflare_fst (domain : String) (outcome : HttpOutcome) :
    (check_cloudflare domain outcome).1 = domain := by
  cases outcome with
  | error e => rfl
  | ok hs =>
      by_cases h : (headersContains hs "cf-ray"
          || (lowerStr (headersGet hs "server" "") == "cloudflare")) = true
      · simp [check_cloudflare, h]
      · simp only [Bool.not_eq_true] at h
        simp [check_cloudflare, h]

/-- The batch's task results are keyed by exactly the submitted domains. -/
theorem dispatcherTasks_map_fst (env : String → HttpOutcome) (domains : List String) :
    (dispatcherTasks env domains).map Prod.fst = domains := by
  unfold dispatcherTasks
  rw [List.map_map]
  have : (Prod.fst ∘ fun d => check_cloudflare d (env d)) = id :=
    funext fun d => check_cloudflare_fst d (env d)
  rw [this, List.map_id]

/-- Erasing a member shortens a list by exactly one. -/
theorem length_erase_task (a : TaskResult) (l : List TaskResult) (hmem : a ∈ l) :
    (l.erase a).length + 1 = l.length := by
  have := (perm_cons_erase_task a l hmem).length_eq
  simp only [List.length_cons] at this
  omega

/-- C3: whenever a batch of N domains runs to completion, exactly N
completion events are drained, the drained results are exactly one probe
result per submitted domain (no loss, no duplication, counted with
multiplicity), and the ResultSet size plus the number of completions
observed negative equals N. -/
theorem C3_batch_completeness (env : String → HttpOutcome) (domains : List String)
    (limit : Nat) (drained : List TaskResult)
    (h : CompletionOrder limit (dispatcherTasks env domains) drained) :
    drained.length = domains.length ∧
      drained.Perm (dispatcherTasks env domains) ∧
      (aggRun domains.length drained).cf_domains.length
        + (drained.filter (fun r => !r.2)).length = domains.length := by
  have hperm := completionOrder_perm limit _ drained h
  have hlen : drained.length = domains.length := by
    rw [hperm.length_eq]
    unfold dispatcherTasks
    exact List.length_map _ _
  refine ⟨hlen, hperm, ?_⟩
  rw [aggRun_cf_domains, List.length_map, length_filter_pos_add_neg]
  exact hlen

/-- C3 witness: a singleton batch against an environment where every
domain matches, drained after one completion. -/
theorem C3_batch_completeness_witness :
    ([("a.test", true)] : List TaskResult).length = (["a.test"] : List String).length ∧
      ([("a.test", true)] : List TaskResult).Perm (dispatcherTasks envCF ["a.test"]) ∧
      (aggRun (["a.test"] : List String).length [("a.test", true)]).cf_domains.length
        + ([("a.test", true)].filter (fun r => !r.2)).length
        = (["a.test"] : List String).length := by
  have hco : CompletionOrder 100 (dispatcherTasks envCF ["a.test"]) [("a.test", true)] := by
    have heq : dispatcherTasks envCF ["a.test"] = [("a.test", true)] := by decide
    have := completionOrder_self 100 (by decide) (dispatcherTasks envCF ["a.test"])
    rwa [heq] at this
  exact C3_batch_completeness envCF ["a.test"] 100 [("a.test", true)] hco

/-- C4 counterexample: submitting the same matching domain twice is a run
the dispatcher accepts, and it produces a ResultSet with a repeated
domain, refuting the unconditional no-duplicates guarantee. -/
theorem C4_resultset_counterexample :
    CompletionOrder 100 (dispatcherTasks envCF ["a.test", "a.test"])
        [("a.test", true), ("a.test", true)] ∧
      ¬ (aggRun 2 [("a.test", true), ("a.test", true)]).cf_domains.Nodup := by
  constructor
  · have heq : dispatcherTasks envCF ["a.test", "a.test"]
        = [("a.test", true), ("a.test", true)] := by decide
    have := completionOrder_self 100 (by decide) (dispatcherTasks envCF ["a.test", "a.test"])
    rwa [heq] at this
  · decide

/-- C4 (amended): whenever a batch runs to completion, the ResultSet is
exactly the domains of the matched completions, in the order their
completions were observed (no omissions); and it contains no repeated
domain provided the input sequence contains no repeated domain. -/
theorem C4_resultset_amended (env : String → HttpOutcome) (domains : List String)
    (limit : Nat) (drained : List TaskResult)
    (h : CompletionOrder limit (dispatcherTasks env domains) drained) :
    (aggRun domains.length drained).cf_domains
        = (drained.filter (fun r => r.2)).map Prod.fst ∧
      (domains.Nodup → (aggRun domains.length drained).cf_domains.Nodup) := by
  refine ⟨aggRun_cf_domains domains.length drained, ?_⟩
  intro hnd
  rw [aggRun_cf_domains]
  have hperm := completionOrder_perm limit _ drained h
  have hmapperm : (drained.map Prod.fst).Perm domains := by
    have := hperm.map Prod.fst
    rwa [dispatcherTasks_map_fst] at this
  have hdnd : (drained.map Prod.fst).Nodup := hmapperm.nodup_iff.mpr hnd
  have hsub : ((drained.filter (fun r => r.2)).map Prod.fst).Sublist
      (drained.map Prod.fst) :=
    (List.filter_sublist drained).map Prod.fst
  exact List.Nodup.sublist hsub hdnd

/-- C4 witness: a two-domain batch with distinct domains, only the first
matching, drained in submission order. -/
theorem C4_resultset_witness :
    (aggRun (["a.test", "b.test"] : List String).length
        [("a.test", true), ("b.test", false)]).cf_domains
        = ([("a.test", true), ("b.test", false)].filter (fun r => r.2)).map Prod.fst ∧
      (aggRun (["a.test", "b.test"] : List String).length
        [("a.test", true), ("b.test", false)]).cf_domains.Nodup := by
  have hco : CompletionOrder 100 (dispatcherTasks envAB ["a.test", "b.test"])
      [("a.test", true), ("b.test", false)] := by
    have heq : dispatcherTasks envAB ["a.test", "b.test"]
        = [("a.test", true), ("b.test", false)] := by decide
    have := completionOrder_self 100 (by decide) (dispatcherTasks envAB ["a.test", "b.test"])
    rwa [heq] at this
  have := C4_resultset_amended envAB ["a.test", "b.test"] 100
    [("a.test", true), ("b.test", false)] hco
  exact ⟨this.1, this.2 (by decide)⟩

/-- C5 counterexample: with a zero concurrency limit and a nonempty domain
list, the batch can never complete — the code deadlocks on
`asyncio.Semaphore(0)` instead of returning an empty ResultSet. -/
theorem C5_degenerate_inputs_counterexample :
    ¬ ∃ drained : List TaskResult,
      CompletionOrder 0 (dispatcherTasks envCF ["b.test"]) drained := by
  rintro ⟨drained, s, hr, hp, hrn, hd⟩
  have hs := reachable_zero _ s hr
  subst hs
  simp only [] at hp
  have : dispatcherTasks envCF ["b.test"] = [] := hp
  simp [dispatcherTasks] at this

/-- C5 (amended): an empty domain list yields an empty ResultSet
immediately (the initial state is already final, and every completed run
of an empty batch drains nothing and collects nothing); but with
`concurrencyLimit = 0` and a nonempty domain list the dispatcher can never
complete: no task ever passes the zero-width admission gate, so the batch
deadlocks rather than returning an empty ResultSet. -/
theorem C5_degenerate_inputs_amended :
    (∀ (env : String → HttpOutcome) (limit : Nat) (drained : List TaskResult),
        CompletionOrder limit (dispatcherTasks env []) drained →
          drained = [] ∧ (aggRun 0 drained).cf_domains = []) ∧
      (∀ (env : String → HttpOutcome) (limit : Nat),
        CompletionOrder limit (dispatcherTasks env []) []) ∧
      ∀ (env : String → HttpOutcome) (domains : List String), domains ≠ [] →
        ¬ ∃ drained : List TaskResult,
          CompletionOrder 0 (dispatcherTasks env domains) drained := by
  refine ⟨?_, ?_, ?_⟩
  · intro env limit drained h
    have hperm := completionOrder_perm limit _ drained h
    have hnil : drained = [] := by
      have : drained.Perm ([] : List TaskResult) := by
        simpa [dispatcherTasks] using hperm
      exact this.eq_nil
    subst hnil
    exact ⟨rfl, rfl⟩
  · intro env limit
    exact ⟨SchedState.mk (dispatcherTasks env []) [] [],
      Relation.ReflTransGen.refl, by simp [dispatcherTasks], rfl, rfl⟩
  · intro env domains hne
    rintro ⟨drained, s, hr, hp, hrn, hd⟩
    have hs := reachable_zero _ s hr
    subst hs
    have : dispatcherTasks env domains = [] := hp
    simp only [dispatcherTasks, List.map_eq_nil_iff] at this
    exact hne this

/-- C5 witness: the empty batch completes with an empty ResultSet, and a
concrete one-domain batch under a zero limit never completes. -/
theorem C5_degenerate_inputs_witness :
    (([] : List TaskResult) = [] ∧ (aggRun 0 ([] : List TaskResult)).cf_domains = []) ∧
      ¬ ∃ drained : List TaskResult,
        CompletionOrder 0 (dispatcherTasks envCF ["c.test"]) drained :=
  ⟨C5_degenerate_inputs_amended.1 envCF 7 [] (C5_degenerate_inputs_amended.2.1 envCF 7),
    C5_degenerate_inputs_amended.2.2 envCF ["c.test"] (by decide)⟩

/-- C6: the `checked` counter is bumped by exactly one on every completion
event (hence is monotonically non-decreasing over the run), and when the
batch finishes it equals exactly the number of submitted domains. -/
theorem C6_checked_counter (env : String → HttpOutcome) (domains : List String)
    (limit : Nat) (drained : List TaskResult)
    (h : CompletionOrder limit (dispatcherTasks env domains) drained) :
    (∀ (s : AggState) (r : TaskResult),
        (aggStep domains.length s r).checked = s.checked + 1) ∧
      (aggRun domains.length drained).checked = domains.length := by
  refine ⟨fun s r => aggStep_checked domains.length s r, ?_⟩
  have hperm := completionOrder_perm limit _ drained h
  have hlen : drained.length = domains.length := by
    rw [hperm.length_eq]
    unfold dispatcherTasks
    exact List.length_map _ _
  rw [aggRun_checked]
  exact hlen

/-- C6 witness: a concrete three-domain batch where one probe matches. -/
theorem C6_checked_counter_witness :
    (∀ (s : AggState) (r : TaskResult),
        (aggStep (["a.test", "b.test", "c.test"] : List String).length s r).checked
          = s.checked + 1) ∧
      (aggRun (["a.test", "b.test", "c.test"] : List String).length
        [("a.test", true), ("b.test", false), ("c.test", false)]).checked
        = (["a.test", "b.test", "c.test"] : List String).length := by
  have hco : CompletionOrder 100 (dispatcherTasks envAB ["a.test", "b.test", "c.test"])
      [("a.test", true), ("b.test", false), ("c.test", false)] := by
    have heq : dispatcherTasks envAB ["a.test", "b.test", "c.test"]
        = [("a.test", true), ("b.test", false), ("c.test", false)] := by decide
    have := completionOrder_self 100 (by decide)
      (dispatcherTasks envAB ["a.test", "b.test", "c.test"])
    rwa [heq] at this
  exact C6_checked_counter envAB ["a.test", "b.test", "c.test"] 100
    [("a.test", true), ("b.test", false), ("c.test", false)] hco

set_option maxRecDepth 10000 in
/-- C7 counterexample: a one-hundred-domain batch whose hundredth
completion matches is a run the dispatcher accepts; one hundred
completions are observed, yet NO milestone line is printed at all — the
code prints the milestone only on a 100th completion whose probe did not
match, refuting "a milestone observation on every 100th completion". -/
theorem C7_progress_events_counterexample :
    CompletionOrder 100 (dispatcherTasks envMilestone milestoneDomains)
        (dispatcherTasks envMilestone milestoneDomains) ∧
      (aggRun 100 (dispatcherTasks envMilestone milestoneDomains)).checked = 100 ∧
      (aggRun 100 (dispatcherTasks envMilestone milestoneDomains)).events.countP
        isMilestone = 0 := by
  refine ⟨completionOrder_self 100 (by decide) _, by decide, by decide⟩

/-- C7 (amended): on each completion event the loop emits a distinct
"match found" line whenever the completed probe matched, and a "still
scanning" milestone line on every 100th completion WHOSE PROBE DID NOT
MATCH (a matched 100th completion emits only the match line). -/
theorem C7_progress_events_amended (total : Nat) (l₁ l₂ : List TaskResult)
    (r : TaskResult) :
    (r.2 = true →
        ProgressEvent.matchFound (l₁.length + 1) total r.1
          ∈ (aggRun total (l₁ ++ r :: l₂)).events) ∧
      (r.2 = false → (l₁.length + 1) % 100 = 0 →
        ∃ found : Nat, ProgressEvent.milestone (l₁.length + 1) total found
          ∈ (aggRun total (l₁ ++ r :: l₂)).events) := by
  have hsplit : aggRun total (l₁ ++ r :: l₂)
      = List.foldl (aggStep total) (aggStep total (aggRun total l₁) r) l₂ := by
    unfold aggRun
    rw [List.foldl_append, List.foldl_cons]
  have hchecked : (aggRun total l₁).checked = l₁.length := aggRun_checked total l₁
  obtain ⟨es, hes⟩ := foldl_aggStep_events total l₂ (aggStep total (aggRun total l₁) r)
  constructor
  · intro hr
    rw [hsplit, hes]
    unfold aggStep
    simp [hr, hchecked]
  · intro hr hmod
    rw [hsplit, hes]
    unfold aggStep
    refine ⟨(aggRun total l₁).cf_domains.length, ?_⟩
    simp [hr, hchecked, hmod]

/-- C7 witness: a matched first completion emits its match line, and a
negative hundredth completion emits a milestone line. -/
theorem C7_progress_events_witness :
    ProgressEvent.matchFound 1 1 "a.test"
        ∈ (aggRun 1 ([] ++ ("a.test", true) :: [])).events ∧
      ∃ found : Nat, ProgressEvent.milestone 100 100 found
        ∈ (aggRun 100 (List.replicate 99 ("n.test", false)
            ++ ("x.test", false) :: [])).events := by
  constructor
  · exact (C7_progress_events_amended 1 [] [] ("a.test", true)).1 rfl
  · have := (C7_progress_events_amended 100 (List.replicate 99 ("n.test", false)) []
      ("x.test", false)).2 rfl (by decide)
    simpa using this

/-- C8: the admission gate works: (a) in every reachable state of a run
the number of in-flight probes never exceeds the concurrency limit;
(b) for ANY in-flight task — matched, negative or failed alike — the
completion step is enabled and releases exactly one slot; (c) the gate
never leaks capacity: with any positive limit every batch can run to
completion. -/
theorem C8_concurrency_gate (limit : Nat) (tasks : List TaskResult) :
    (∀ s : SchedState, Reachable limit tasks s → s.running.length ≤ limit) ∧
      (∀ (s : SchedState) (r : TaskResult), r ∈ s.running →
        SchedStep limit s
            (SchedState.mk s.pending (s.running.erase r) (s.drained ++ [r])) ∧
          (s.running.erase r).length + 1 = s.running.length) ∧
      (0 < limit → ∃ drained : List TaskResult, CompletionOrder limit tasks drained) := by
  refine ⟨fun s h => reachable_bound limit tasks s h, ?_, ?_⟩
  · intro s r hmem
    exact ⟨SchedStep.finish s r hmem, length_erase_task r s.running hmem⟩
  · intro hl
    exact ⟨tasks, completionOrder_self limit hl tasks⟩

/-- C8 witness: a state with one in-flight probe reached under limit 2
respects the bound; the slot-release equation holds there; and a concrete
one-task batch can complete under limit 2. -/
theorem C8_concurrency_gate_witness :
    ((SchedState.mk [] [("a.test", true)] []).running.length ≤ 2) ∧
      ((([("a.test", true)] : List TaskResult).erase ("a.test", true)).length + 1
        = ([("a.test", true)] : List TaskResult).length) ∧
      ∃ drained : List TaskResult, CompletionOrder 2 [("b.test", false)] drained := by
  refine ⟨?_, ?_, ?_⟩
  · refine (C8_concurrency_gate 2 [("a.test", true)]).1
      (SchedState.mk [] [("a.test", true)] []) ?_
    refine Relation.ReflTransGen.single ?_
    have hstep := @SchedStep.start 2 (SchedState.mk [("a.test", true)] [] [])
      ("a.test", true) (by decide) (by decide)
    have herase : (([("a.test", true)] : List TaskResult).erase ("a.test", true)) = [] := by
      decide
    rw [herase] at hstep
    exact hstep
  · exact ((C8_concurrency_gate 2 [("a.test", true)]).2.1
      (SchedState.mk [] [("a.test", true)] []) ("a.test", true) (by decide)).2
  · exact (C8_concurrency_gate 2 [("b.test", false)]).2.2 (by decide)
